import Mathlib

/-!
Shallow embedding of `src/screen-addresses.js` (node-address-screen).

The program screens a list of blockchain addresses against a remote
risk-scoring service: it partitions the address list into batches
(`splitIntoBatches`), screens each address with two remote calls
(`check_exposure`), flattens results into CSV rows (`processBatch`),
fetches the category catalog once at startup (`fetchCategories`), and
spaces batch starts with a sliding-window rate limiter
(`setBatchTime` / `checkRateLimit`).

Remote I/O is modelled by explicit "world" values describing the fetch
outcomes; time is modelled by explicit clocks and duration inputs.
-/

set_option maxRecDepth 16000

namespace AddressScreen

/-- `const rateLimit = 3800` — max number of API requests / minute. -/
def rateLimit : Nat := 3800

/-- `const parallelism = 45` — number of simultaneous address screens per batch. -/
def parallelism : Nat := 45

/-- `const DIRECT = 'direct'` — API label for direct exposure. -/
def DIRECT : String := "direct"

/-- `const INDIRECT = 'indirect'` — API label for indirect exposure. -/
def INDIRECT : String := "indirect"

/-- `const size = Math.min(max, Math.ceil(arr.length / 2))` from
`splitIntoBatches`; `(N + 1) / 2` is `Math.ceil(N / 2)` on Nat. -/
def batchSize (N max : Nat) : Nat := min max ((N + 1) / 2)

/-- `splitIntoBatches(arr, max)`:
`Array.from({length: Math.ceil(arr.length / size)}, (v,i) => arr.slice(i*size, i*size+size))`.
Nat ceiling division `(N + size - 1) / size` models `Math.ceil(N / size)`;
for `arr = []` the length expression is `NaN`, which `Array.from` coerces
to `0`, matching Nat division by zero here. -/
def splitIntoBatches (arr : List α) (max : Nat) : List (List α) :=
  let size := batchSize arr.length max
  (List.range ((arr.length + size - 1) / size)).map fun i =>
    (arr.drop (i * size)).take size

/-- Concatenating consecutive `size`-chunks recovers the list, as soon as
`n` chunks are enough to cover it. -/
theorem range_map_chunk_flatten {α : Type} (size : Nat) :
    ∀ (n : Nat) (arr : List α), arr.length ≤ n * size →
      ((List.range n).map fun i => (arr.drop (i * size)).take size).flatten = arr := by
  intro n
  induction n with
  | zero =>
    intro arr h
    have : arr = [] := List.eq_nil_of_length_eq_zero (Nat.le_zero.mp (by simpa using h))
    simp [this]
  | succ n ih =>
    intro arr h
    rw [List.range_succ_eq_map, List.map_cons, List.flatten_cons, List.map_map]
    have hf : ((fun i => (arr.drop (i * size)).take size) ∘ Nat.succ)
        = fun i => (((arr.drop size).drop (i * size)).take size) := by
      funext i
      rw [Function.comp_apply, Nat.succ_mul, Nat.add_comm (i * size) size,
        ← List.drop_drop]
    have hlen : (arr.drop size).length ≤ n * size := by
      rw [List.length_drop]
      rw [Nat.succ_mul] at h
      omega
    rw [hf, ih (arr.drop size) hlen, Nat.zero_mul, List.drop_zero]
    exact List.take_append_drop size arr

/-- Ceiling division covers: `N ≤ ⌈N / size⌉ * size`. -/
theorem le_ceil_mul (N size : Nat) (hs : 0 < size) :
    N ≤ ((N + size - 1) / size) * size := by
  have hd := Nat.div_add_mod (N + size - 1) size
  have hm : (N + size - 1) % size < size := Nat.mod_lt _ hs
  rw [Nat.mul_comm]
  omega

/-- The batch partition concatenates back to the input list. -/
theorem splitIntoBatches_flatten {α : Type} (arr : List α) (max : Nat)
    (hm : 1 ≤ max) :
    (splitIntoBatches arr max).flatten = arr := by
  by_cases hN : arr.length = 0
  · have harr : arr = [] := List.eq_nil_of_length_eq_zero hN
    subst harr
    simp [splitIntoBatches, batchSize]
  · have hs : 0 < batchSize arr.length max := by
      have : 0 < arr.length := Nat.pos_of_ne_zero hN
      unfold batchSize
      omega
    exact range_map_chunk_flatten _ _ arr (le_ceil_mul arr.length _ hs)

/-- C1: `splitIntoBatches` partitions the list with
`size = min(P, ceil(N/2))` into `ceil(N/size)` consecutive slices
(`arr.slice(i*size, i*size+size)`), whose concatenation is exactly the
input (no gaps, no duplicates), the last slice possibly shorter; for
`N ≤ 2P` at most two batches result. Determinism holds because
`splitIntoBatches` is a pure function of its arguments. -/
theorem splitIntoBatches_spec (arr : List String) (max : Nat) (hm : 1 ≤ max) :
    (splitIntoBatches arr max).flatten = arr
    ∧ (1 ≤ arr.length →
        (splitIntoBatches arr max).length
          = (arr.length + batchSize arr.length max - 1) / batchSize arr.length max)
    ∧ (arr.length ≤ 2 * max → (splitIntoBatches arr max).length ≤ 2)
    ∧ (∀ i (h : i < (splitIntoBatches arr max).length),
        (splitIntoBatches arr max).get ⟨i, h⟩
          = (arr.drop (i * batchSize arr.length max)).take (batchSize arr.length max))
    ∧ (∀ i (h : i < (splitIntoBatches arr max).length),
        ((splitIntoBatches arr max).get ⟨i, h⟩).length
          = min (batchSize arr.length max) (arr.length - i * batchSize arr.length max)) := by
  refine ⟨splitIntoBatches_flatten arr max hm, ?_, ?_, ?_, ?_⟩
  · intro _
    simp [splitIntoBatches]
  · intro h2
    by_cases hN : arr.length = 0
    · simp [splitIntoBatches, hN, batchSize]
    · have hpos : 0 < arr.length := Nat.pos_of_ne_zero hN
      have hs : 0 < batchSize arr.length max := by unfold batchSize; omega
      have hsz : batchSize arr.length max = (arr.length + 1) / 2 := by
        unfold batchSize; omega
      have hcount : (splitIntoBatches arr max).length
          = (arr.length + batchSize arr.length max - 1) / batchSize arr.length max := by
        simp [splitIntoBatches]
      rw [hcount]
      have h3 : (arr.length + batchSize arr.length max - 1) / batchSize arr.length max < 3 := by
        rw [Nat.div_lt_iff_lt_mul hs, hsz]
        omega
      omega
  · intro i h
    simp [splitIntoBatches]
  · intro i h
    simp [splitIntoBatches]

/-- Witness for C1 at a concrete input: five addresses with `max = 2`
give `size = 2` and three batches whose concatenation is the input. -/
theorem splitIntoBatches_spec_witness :
    (1 ≤ 2)
    ∧ (splitIntoBatches ["a", "b", "c", "d", "e"] 2).flatten = ["a", "b", "c", "d", "e"] :=
  ⟨by decide, (splitIntoBatches_spec ["a", "b", "c", "d", "e"] 2 (by decide)).1⟩

/-! ### Address screening (`check_exposure`) -/

/-- An HTTP response as seen through `node-fetch`: `ok`, `status`,
`statusText`. -/
structure HttpResp where
  ok : Bool
  status : Nat
  statusText : String
deriving DecidableEq, Repr

/-- Outcome of one `fetch` call: either the promise rejects with a
transport-level error (message `msg`), or a response arrives carrying a
body of type `β`. -/
inductive FetchOutcome (β : Type) where
  | fault (msg : String)
  | success (resp : HttpResp) (body : β)
deriving DecidableEq, Repr

/-- One element of the profile's `exposures` array:
`{category, exposureType, value}`. `exposureType` may be absent and
`value` may be absent, hence `Option`. -/
structure ExposureR where
  category : String
  exposureType : Option String
  value : Option Int
deriving DecidableEq, Repr

/-- The profile's `cluster` object: `{category, name}`. -/
structure ClusterR where
  category : Option String
  name : Option String
deriving DecidableEq, Repr

/-- The JSON body returned by the retrieve call (phase 2). -/
structure Profile where
  risk : Option String
  riskReason : Option String
  cluster : Option ClusterR
  exposures : Option (List ExposureR)
deriving DecidableEq, Repr

/-- The `address_info` object built by `check_exposure`: starts as `{}`
(every field absent). -/
structure AddressInfo where
  address : Option String := none
  screenStatus : Option String := none
  risk : Option String := none
  riskReason : Option String := none
  cluster : Option ClusterR := none
  exposures : Option (List ExposureR) := none
deriving DecidableEq, Repr

/-- The remote world one address screening runs against: the register
(POST) outcome and the retrieve (GET) outcome. The GET body is the
result of `get.json()`, which itself may fail to parse. -/
structure AddrWorld where
  post : FetchOutcome Unit
  get : FetchOutcome (Except String Profile)

/-- An HTTP request issued by `check_exposure`, for tracking which calls
are made with which address. -/
inductive Request where
  | register (address : String)
  | retrieve (address : String)
deriving DecidableEq, Repr

/-- `record.split(',')[0]` — the substring of the input line before the
first comma (the head of a comma split is exactly the longest
comma-free leading run of characters). -/
def firstField (record : String) : String :=
  String.mk (record.data.takeWhile fun c => c ≠ ',')

/-- `post.status + ' ' + post.statusText`, the message of the error
thrown on a non-success HTTP status. -/
def statusMsg (r : HttpResp) : String :=
  toString r.status ++ " " ++ r.statusText

/-- The catch branch of `check_exposure`: `address_info` is still `{}`
when an error is thrown, so it becomes `{address, screenStatus: e.message}`. -/
def errInfo (address msg : String) : AddressInfo :=
  { address := some address, screenStatus := some msg }

/-- `check_exposure(record)` against world `w`: returns the
`address_info` object together with the trace of HTTP requests issued.
Phase 1 registers the address; a rejection or non-`ok` status throws,
caught by the catch branch. Phase 2 retrieves the profile likewise. On
success, the parsed profile gets `address` and `screenStatus: 'complete'`
set. The `finally { return address_info }` makes the function total. -/
def check_exposure (record : String) (w : AddrWorld) : AddressInfo × List Request :=
  let address := firstField record
  match w.post with
  | .fault m => (errInfo address m, [.register address])
  | .success resp _ =>
    if resp.ok = false then
      (errInfo address (statusMsg resp), [.register address])
    else
      match w.get with
      | .fault m => (errInfo address m, [.register address, .retrieve address])
      | .success resp2 body =>
        if resp2.ok = false then
          (errInfo address (statusMsg resp2), [.register address, .retrieve address])
        else
          match body with
          | .error m => (errInfo address m, [.register address, .retrieve address])
          | .ok p =>
            ({ address := some address, screenStatus := some "complete",
               risk := p.risk, riskReason := p.riskReason,
               cluster := p.cluster, exposures := p.exposures },
             [.register address, .retrieve address])

/-- C3: `check_exposure` is total — a plain function producing exactly
one `AddressInfo` per call, whatever the HTTP statuses or transport
faults of either phase — the outcome always carries the screened
address, and is either the completed profile (`screenStatus` is
`"complete"`) or the minimal error object whose `screenStatus` holds
the failure description; no failure escapes outward. -/
theorem check_exposure_total (record : String) (w : AddrWorld) :
    (check_exposure record w).1.address = some (firstField record)
    ∧ ((∃ p : Profile, (check_exposure record w).1
          = { address := some (firstField record),
              screenStatus := some "complete",
              risk := p.risk, riskReason := p.riskReason,
              cluster := p.cluster, exposures := p.exposures })
        ∨ (∃ m, (check_exposure record w).1 = errInfo (firstField record) m)) := by
  unfold check_exposure
  cases w.post with
  | fault m => exact ⟨by simp [errInfo], Or.inr ⟨m, by simp⟩⟩
  | success resp b =>
    by_cases hok : resp.ok = false
    · exact ⟨by simp [hok, errInfo], Or.inr ⟨statusMsg resp, by simp [hok]⟩⟩
    · cases w.get with
      | fault m => exact ⟨by simp [hok, errInfo], Or.inr ⟨m, by simp [hok]⟩⟩
      | success resp2 body =>
        by_cases hok2 : resp2.ok = false
        · exact ⟨by simp [hok, hok2, errInfo],
            Or.inr ⟨statusMsg resp2, by simp [hok, hok2]⟩⟩
        · cases body with
          | error m => exact ⟨by simp [hok, hok2, errInfo],
              Or.inr ⟨m, by simp [hok, hok2]⟩⟩
          | ok p => exact ⟨by simp [hok, hok2], Or.inl ⟨p, by simp [hok, hok2]⟩⟩

/-- C4: a non-success register (phase 1) response makes `check_exposure`
return immediately: `screenStatus` is `"<code> <description>"`, all other
fields of the outcome are absent, and no retrieve request is ever issued. -/
theorem register_failure_skips_retrieve (record : String) (w : AddrWorld)
    (r : HttpResp) (b : Unit) (hpost : w.post = .success r b)
    (hok : r.ok = false) :
    (check_exposure record w).1
      = { address := some (firstField record),
          screenStatus := some (toString r.status ++ " " ++ r.statusText),
          risk := none, riskReason := none, cluster := none, exposures := none }
    ∧ (check_exposure record w).2 = [.register (firstField record)] := by
  unfold check_exposure
  rw [hpost]
  simp [hok, errInfo, statusMsg]

/-- Witness for C4: a concrete 403 on the register call. -/
theorem register_failure_skips_retrieve_witness :
    (check_exposure "0xABC"
        { post := .success ⟨false, 403, "Forbidden"⟩ (),
          get := .fault "unused" }).1
      = { address := some "0xABC", screenStatus := some "403 Forbidden",
          risk := none, riskReason := none, cluster := none, exposures := none }
    ∧ (check_exposure "0xABC"
        { post := .success ⟨false, 403, "Forbidden"⟩ (),
          get := .fault "unused" }).2 = [.register "0xABC"] := by
  have h := register_failure_skips_retrieve "0xABC"
    { post := .success ⟨false, 403, "Forbidden"⟩ (), get := .fault "unused" }
    ⟨false, 403, "Forbidden"⟩ () rfl rfl
  have hf : firstField "0xABC" = "0xABC" := by decide
  rw [hf] at h
  simpa using h

/-! ### Row flattening (`processBatch` inner map) -/

/-- A CSV cell as pushed by `row.push(...)`: a string, a number, or
`undefined` (which `join()` renders as the empty field). -/
inductive Cell where
  | str (s : String)
  | num (n : Int)
  | empty
deriving DecidableEq, Repr

/-- An optional string field pushed onto the row. -/
def cellOfOptStr : Option String → Cell
  | some s => .str s
  | none => .empty

/-- An optional numeric field pushed onto the row. -/
def cellOfOptInt : Option Int → Cell
  | some n => .num n
  | none => .empty

/-- `result.exposures?.find(e => e.category == cat && !(e.exposureType == INDIRECT))?.value`
— the single-column lookup used when indirect mode is off. -/
def lookupNonIndirect (r : AddressInfo) (cat : String) : Option Int :=
  (r.exposures.bind fun es =>
    es.find? fun e => e.category == cat && !(e.exposureType == some INDIRECT)).bind
    ExposureR.value

/-- `result.exposures?.find(e => e.category == cat && e.exposureType == ty)?.value`
— the exact `(category, exposureType)` lookup used in indirect mode. -/
def lookupByType (r : AddressInfo) (cat ty : String) : Option Int :=
  (r.exposures.bind fun es =>
    es.find? fun e => e.category == cat && e.exposureType == some ty).bind
    ExposureR.value

/-- The cells pushed for one catalog category: two (`direct` then
`indirect`) when `include_indirect`, otherwise one. -/
def categoryCellsFor (ii : Bool) (r : AddressInfo) (cat : String) : List Cell :=
  if ii then
    [cellOfOptInt (lookupByType r cat DIRECT), cellOfOptInt (lookupByType r cat INDIRECT)]
  else
    [cellOfOptInt (lookupNonIndirect r cat)]

/-- All category cells of one row, in catalog order
(`for (cat of categories) { ... row.push(...) }`). -/
def categoryRow (ii : Bool) (cats : List String) (r : AddressInfo) : List Cell :=
  (cats.map (categoryCellsFor ii r)).flatten

/-- One output row: the six fixed fields
`address, screenStatus, risk, riskReason, cluster?.category, cluster?.name`
followed by the category cells. -/
def flattenRow (cats : List String) (ii : Bool) (r : AddressInfo) : List Cell :=
  [cellOfOptStr r.address, cellOfOptStr r.screenStatus, cellOfOptStr r.risk,
   cellOfOptStr r.riskReason, cellOfOptStr (r.cluster.bind ClusterR.category),
   cellOfOptStr (r.cluster.bind ClusterR.name)]
  ++ categoryRow ii cats r

/-- In non-indirect mode the category block is one cell per category, in
catalog order. -/
theorem categoryRow_false_eq_map (cats : List String) (r : AddressInfo) :
    categoryRow false cats r
      = cats.map fun cat => cellOfOptInt (lookupNonIndirect r cat) := by
  induction cats with
  | nil => rfl
  | cons c cs ih =>
    simp only [categoryRow, List.map_cons, List.flatten_cons] at ih ⊢
    rw [ih]
    rfl

/-- Helper: the number of category cells per category is 2 in indirect
mode and 1 otherwise. -/
theorem categoryRow_length (ii : Bool) (cats : List String) (r : AddressInfo) :
    (categoryRow ii cats r).length = cats.length * (if ii then 2 else 1) := by
  induction cats with
  | nil => simp [categoryRow]
  | cons c cs ih =>
    simp only [categoryRow, List.map_cons, List.flatten_cons, List.length_append] at ih ⊢
    rw [ih]
    cases ii <;> simp [categoryCellsFor] <;> ring

/-- Helper: an outcome with no exposures list flattens to all-empty
category cells. -/
theorem categoryRow_no_exposures (ii : Bool) (cats : List String)
    (r : AddressInfo) (h : r.exposures = none) :
    categoryRow ii cats r
      = List.replicate (cats.length * (if ii then 2 else 1)) Cell.empty := by
  induction cats with
  | nil => simp [categoryRow]
  | cons c cs ih =>
    simp only [categoryRow, List.map_cons, List.flatten_cons] at ih ⊢
    rw [ih]
    cases ii
    · simp [categoryCellsFor, lookupNonIndirect, h, cellOfOptInt, List.replicate_succ]
    · simp [categoryCellsFor, lookupByType, h, cellOfOptInt, Nat.succ_mul,
        List.replicate_succ]

/-- C5: per category in catalog order, non-indirect mode emits one cell
looked up among the exposures whose category matches and whose
`exposureType` is not `"indirect"`, indirect mode emits the
`direct` cell then the `indirect` cell by exact `(category, exposureType)`
match; an absent match yields the empty cell; and on the concrete catalog
`["mixing","exchange"]` with one direct mixing exposure of 100 the row
suffix is `100,(empty)` resp. `100,(empty),(empty),(empty)`. -/
theorem flattener_category_columns :
    (∀ cats r, categoryRow false cats r
        = cats.map fun cat => cellOfOptInt (lookupNonIndirect r cat))
    ∧ (∀ cats r, categoryRow true cats r
        = (cats.map fun cat =>
            [cellOfOptInt (lookupByType r cat DIRECT),
             cellOfOptInt (lookupByType r cat INDIRECT)]).flatten)
    ∧ (∀ r cat, (∀ e ∈ r.exposures.getD [],
          ¬(e.category = cat ∧ e.exposureType ≠ some INDIRECT)) →
        lookupNonIndirect r cat = none)
    ∧ (∀ r cat ty, (∀ e ∈ r.exposures.getD [],
          ¬(e.category = cat ∧ e.exposureType = some ty)) →
        lookupByType r cat ty = none)
    ∧ (categoryRow false ["mixing", "exchange"]
        { exposures := some [⟨"mixing", some "direct", some 100⟩] }
        = [.num 100, .empty])
    ∧ (categoryRow true ["mixing", "exchange"]
        { exposures := some [⟨"mixing", some "direct", some 100⟩] }
        = [.num 100, .empty, .empty, .empty]) := by
  refine ⟨categoryRow_false_eq_map, ?_, ?_, ?_, by decide, by decide⟩
  · intro cats r
    induction cats with
    | nil => rfl
    | cons c cs ih =>
      simp only [categoryRow, List.map_cons, List.flatten_cons] at ih ⊢
      rw [ih]
      rfl
  · intro r cat h
    unfold lookupNonIndirect
    cases hex : r.exposures with
    | none => rfl
    | some es =>
      rw [hex] at h
      simp only [Option.getD_some] at h
      simp only [Option.some_bind]
      have hfind : (es.find? fun e => e.category == cat && !(e.exposureType == some INDIRECT)) = none := by
        rw [List.find?_eq_none]
        intro e he
        have := h e he
        simp only [Bool.and_eq_true, beq_iff_eq, Bool.not_eq_true']
        intro hcat
        exact this ⟨hcat.1, by simpa using hcat.2⟩
      rw [hfind]
      rfl
  · intro r cat ty h
    unfold lookupByType
    cases hex : r.exposures with
    | none => rfl
    | some es =>
      rw [hex] at h
      simp only [Option.getD_some] at h
      simp only [Option.some_bind]
      have hfind : (es.find? fun e => e.category == cat && e.exposureType == some ty) = none := by
        rw [List.find?_eq_none]
        intro e he
        have := h e he
        simp only [Bool.and_eq_true, beq_iff_eq]
        intro hcat
        exact this ⟨hcat.1, hcat.2⟩
      rw [hfind]
      rfl

/-- Witness for C5: the no-match clauses applied to a concrete outcome
with an unrelated exposure. -/
theorem flattener_category_columns_witness :
    lookupNonIndirect { exposures := some [⟨"scam", some "direct", some 7⟩] } "mixing" = none
    ∧ lookupByType { exposures := some [⟨"scam", some "direct", some 7⟩] } "mixing" "direct" = none := by
  exact ⟨flattener_category_columns.2.2.1 _ "mixing" (by decide),
    flattener_category_columns.2.2.2.1 _ "mixing" "direct" (by decide)⟩

/-! ### Failure rows (C6) -/

/-- The register call or the retrieve call failed: the POST rejected or
returned a non-`ok` status, or the POST succeeded and the GET rejected
or returned a non-`ok` status. -/
def callFailed (w : AddrWorld) : Prop :=
  match w.post with
  | .fault _ => True
  | .success r _ =>
    r.ok = false ∨
      match w.get with
      | .fault _ => True
      | .success r2 _ => r2.ok = false

/-- Transport-fault messages of the world are not the literal string
`"complete"` (error messages produced by a failing fetch never are). -/
def faultMsgsNotComplete (w : AddrWorld) : Prop :=
  (∀ m, w.post = .fault m → m ≠ "complete")
  ∧ (∀ m, w.get = .fault m → m ≠ "complete")

/-- An HTTP-status failure message `"<code> <description>"` contains a
space, so it is never the string `"complete"`. -/
theorem statusMsg_ne_complete (r : HttpResp) : statusMsg r ≠ "complete" := by
  intro h
  have hd := congrArg String.data h
  unfold statusMsg at hd
  have hmem : ' ' ∈ (toString r.status ++ " " ++ r.statusText).data := by
    rw [String.data_append, String.data_append]
    exact List.mem_append.mpr (Or.inl (List.mem_append.mpr (Or.inr (by decide))))
  rw [hd] at hmem
  exact absurd hmem (by decide)

/-- C6: when the register or retrieve call fails, a full row is still
produced (six fixed cells plus one or two cells per category), its
`screenStatus` differs from `"complete"`, every category cell is empty,
and `risk`, `riskReason` and the cluster fields are absent. -/
theorem failed_screen_row (cats : List String) (ii : Bool) (record : String)
    (w : AddrWorld) (hf : callFailed w) (hm : faultMsgsNotComplete w) :
    (check_exposure record w).1.screenStatus ≠ some "complete"
    ∧ (check_exposure record w).1.risk = none
    ∧ (check_exposure record w).1.riskReason = none
    ∧ (check_exposure record w).1.cluster = none
    ∧ (check_exposure record w).1.exposures = none
    ∧ (flattenRow cats ii (check_exposure record w).1).length
        = 6 + cats.length * (if ii then 2 else 1)
    ∧ categoryRow ii cats (check_exposure record w).1
        = List.replicate (cats.length * (if ii then 2 else 1)) Cell.empty := by
  have hinfo : ∃ msg, (check_exposure record w).1
      = errInfo (firstField record) msg ∧ msg ≠ "complete" := by
    unfold check_exposure
    unfold callFailed at hf
    cases hpost : w.post with
    | fault m =>
      exact ⟨m, by simp, hm.1 m hpost⟩
    | success r b =>
      rw [hpost] at hf
      have hf' : r.ok = false ∨ (match w.get with
          | FetchOutcome.fault _ => True
          | FetchOutcome.success r2 _ => r2.ok = false) := hf
      by_cases hok : r.ok = false
      · exact ⟨statusMsg r, by simp [hok], statusMsg_ne_complete r⟩
      · have hget : (match w.get with
            | FetchOutcome.fault _ => True
            | FetchOutcome.success r2 _ => r2.ok = false) := hf'.resolve_left hok
        cases hget2 : w.get with
        | fault m =>
          exact ⟨m, by simp [hok], hm.2 m hget2⟩
        | success r2 b2 =>
          rw [hget2] at hget
          exact ⟨statusMsg r2, by simp [hok, hget], statusMsg_ne_complete r2⟩
  obtain ⟨msg, heq, hne⟩ := hinfo
  rw [heq]
  refine ⟨?_, rfl, rfl, rfl, rfl, ?_, ?_⟩
  · simp [errInfo]
    exact hne
  · cases ii
    · simp [flattenRow, categoryRow_length]
      omega
    · simp [flattenRow, categoryRow_length]
      omega
  · exact categoryRow_no_exposures ii cats _ rfl

/-- Witness for C6: a concrete world whose retrieve call returns 500. -/
theorem failed_screen_row_witness :
    (check_exposure "0xDEF"
        { post := .success ⟨true, 200, "OK"⟩ (),
          get := .success ⟨false, 500, "Internal Server Error"⟩
            (.error "unused") }).1.screenStatus ≠ some "complete"
    ∧ categoryRow false ["mixing"]
        (check_exposure "0xDEF"
          { post := .success ⟨true, 200, "OK"⟩ (),
            get := .success ⟨false, 500, "Internal Server Error"⟩
              (.error "unused") }).1
        = List.replicate 1 Cell.empty := by
  have h := failed_screen_row ["mixing"] false "0xDEF"
    { post := .success ⟨true, 200, "OK"⟩ (),
      get := .success ⟨false, 500, "Internal Server Error"⟩ (.error "unused") }
    (Or.inr rfl) ⟨fun m hm => by simp at hm, fun m hm => by simp at hm⟩
  exact ⟨h.1, by simpa using h.2.2.2.2.2.2⟩

/-! ### Category catalog (`fetchCategories`) and the run pipeline -/

/-- `categories.sort()` — JS default sort is lexicographic string order. -/
def jsSort (l : List String) : List String :=
  l.mergeSort fun a b => a ≤ b

/-- `fetchCategories()`: fetch the catalog; a transport fault or
non-success status throws, caught and rethrown as
`Error getting categories:  <message>`; on success the sorted body is
returned. -/
def fetchCategories (w : FetchOutcome (List String)) : Except String (List String) :=
  match w with
  | .fault m => .error ("Error getting categories:  " ++ m)
  | .success resp body =>
    if resp.ok = false then .error ("Error getting categories:  " ++ statusMsg resp)
    else .ok (jsSort body)

/-- `const header_fields = [...]`. -/
def header_fields : List String :=
  ["address", "screenStatus", "risk", "riskReason", "category", "name"]

/-- The CSV header: `header_fields.concat(categories)` or, with `-i`,
`header_fields.concat(categories.map(c => c_direct,c_indirect))`
(flattened to one field list). -/
def csvHeader (cats : List String) (ii : Bool) : List String :=
  if ii then
    header_fields ++ (cats.map fun c => [c ++ "_direct", c ++ "_indirect"]).flatten
  else
    header_fields ++ cats

/-- The row written for one input record. -/
def screenedRow (cats : List String) (ii : Bool) (w : String → AddrWorld)
    (record : String) : List Cell :=
  flattenRow cats ii (check_exposure record (w record)).1

/-- All data rows of a run: non-blank lines (`data.filter(Boolean)`) are
split into batches of `parallelism`; each batch maps its records to rows
(`Promise.all` gathers results by index, so batch rows keep record
order) and batches are appended sequentially. -/
def runRows (cats : List String) (ii : Bool) (lines : List String)
    (w : String → AddrWorld) : List (List Cell) :=
  ((splitIntoBatches (lines.filter fun l => l ≠ "") parallelism).map
    fun batch => batch.map (screenedRow cats ii w)).flatten

/-- All HTTP requests of a run's batch work, in batch order. -/
def runRequests (lines : List String) (w : String → AddrWorld) : List Request :=
  ((splitIntoBatches (lines.filter fun l => l ≠ "") parallelism).map
    fun batch => (batch.map fun record => (check_exposure record (w record)).2).flatten).flatten

/-- The run: `fetchCategories` happens before the output file is created
and before any batch; its failure aborts `start` (the `await` is outside
the `try`), so neither header nor rows nor screening requests are
produced. On success the header and all batch rows are written. -/
def runModel (catW : FetchOutcome (List String)) (ii : Bool)
    (lines : List String) (w : String → AddrWorld) :
    Except String (List String × List (List Cell) × List Request) :=
  match fetchCategories catW with
  | .error e => .error e
  | .ok cats => .ok (csvHeader cats ii, runRows cats ii lines w, runRequests lines w)

/-- C7: `fetchCategories` returns the remote list sorted
lexicographically (a permutation of the body, sorted), fails whenever
the fetch faults or returns a non-success status, and on such a failure
the run aborts with no header, no rows and no screening requests. -/
theorem fetchCategories_spec :
    (∀ m, fetchCategories (.fault m)
        = .error ("Error getting categories:  " ++ m))
    ∧ (∀ r body, r.ok = false → fetchCategories (.success r body)
        = .error ("Error getting categories:  " ++ statusMsg r))
    ∧ (∀ r body, r.ok = true →
        fetchCategories (.success r body) = .ok (jsSort body)
        ∧ List.Sorted (· ≤ ·) (jsSort body)
        ∧ (jsSort body).Perm body)
    ∧ (∀ catW ii lines w e, fetchCategories catW = .error e →
        runModel catW ii lines w = .error e) := by
  refine ⟨fun m => rfl, ?_, ?_, ?_⟩
  · intro r body h
    simp [fetchCategories, h]
  · intro r body h
    refine ⟨by simp [fetchCategories, h], ?_, ?_⟩
    · exact List.sorted_mergeSort' body
    · exact List.mergeSort_perm body _
  · intro catW ii lines w e h
    simp [runModel, h]

/-- Witness for C7: a concrete 500 on the catalog fetch aborts a
concrete run. -/
theorem fetchCategories_spec_witness :
    fetchCategories (.success ⟨false, 500, "Internal Server Error"⟩ ["scam"])
      = .error "Error getting categories:  500 Internal Server Error"
    ∧ runModel (.success ⟨false, 500, "Internal Server Error"⟩ ["scam"]) false
        ["0xA"] (fun _ => { post := .fault "x", get := .fault "x" })
      = .error "Error getting categories:  500 Internal Server Error"
    ∧ List.Sorted (· ≤ ·) (jsSort ["scam", "atm", "mixing"]) := by
  have h1 := fetchCategories_spec.2.1 ⟨false, 500, "Internal Server Error"⟩ ["scam"] rfl
  have h2 := fetchCategories_spec.2.2.2 (.success ⟨false, 500, "Internal Server Error"⟩ ["scam"])
    false ["0xA"] (fun _ => { post := .fault "x", get := .fault "x" }) _ h1
  have h3 := (fetchCategories_spec.2.2.1 ⟨true, 200, "OK"⟩ ["scam", "atm", "mixing"] rfl).2.1
  exact ⟨h1, h2, h3⟩

/-- C9: the data rows of a run are exactly the non-blank input lines
mapped to their rows, in input order — same count, same order. -/
theorem rows_match_input (cats : List String) (ii : Bool)
    (lines : List String) (w : String → AddrWorld) :
    runRows cats ii lines w
      = (lines.filter fun l => l ≠ "").map (screenedRow cats ii w)
    ∧ (runRows cats ii lines w).length = (lines.filter fun l => l ≠ "").length := by
  have hjoin : (splitIntoBatches (lines.filter fun l => l ≠ "") parallelism).flatten
      = lines.filter fun l => l ≠ "" :=
    splitIntoBatches_flatten _ _ (by decide)
  have hmap : runRows cats ii lines w
      = (lines.filter fun l => l ≠ "").map (screenedRow cats ii w) := by
    unfold runRows
    rw [← List.map_flatten, hjoin]
  exact ⟨hmap, by rw [hmap, List.length_map]⟩

/-! ### The batch loop (C8) -/

/-- One observable event of the `for (let batch of batches)` loop in
`start`: recording the batch start time (`setBatchTime`), processing the
batch (`processBatch`), and the rate-limit check (`checkRateLimit`). -/
inductive LoopEv where
  | recordStart
  | processB (batch : List String)
  | rateCheck
deriving DecidableEq, BEq, Repr

/-- The event trace of the loop: each iteration records the start time,
processes the batch, then awaits `checkRateLimit` — for every batch,
including the last. -/
def loopEvents (batches : List (List String)) : List LoopEv :=
  (batches.map fun b => [LoopEv.recordStart, LoopEv.processB b, LoopEv.rateCheck]).flatten

/-- C8 counterexample: for a single-batch run the loop still invokes
`checkRateLimit` after that (final) batch — it is not skipped, so the
run performs one rate check rather than zero. -/
theorem rateCheck_not_skipped_after_final :
    loopEvents [["0xA"]] = [.recordStart, .processB ["0xA"], .rateCheck]
    ∧ (loopEvents [["0xA"]]).getLast? = some .rateCheck
    ∧ (loopEvents [["0xA"]]).count .rateCheck = 1
    ∧ ¬ (loopEvents [["0xA"]]).count .rateCheck = 0 := by
  refine ⟨rfl, rfl, rfl, by decide⟩

/-- C8 amended: `checkRateLimit` is invoked once per batch, after every
batch including the final one (the last event of a nonempty run is the
rate check). -/
theorem rateCheck_after_every_batch (batches : List (List String)) :
    (loopEvents batches).count .rateCheck = batches.length
    ∧ (batches ≠ [] → (loopEvents batches).getLast? = some .rateCheck) := by
  induction batches with
  | nil => exact ⟨rfl, fun h => absurd rfl h⟩
  | cons b bs ih =>
    constructor
    · have : loopEvents (b :: bs)
          = [LoopEv.recordStart, LoopEv.processB b, LoopEv.rateCheck] ++ loopEvents bs := by
        simp [loopEvents]
      rw [this, List.count_append, ih.1]
      have hc : ([LoopEv.recordStart, LoopEv.processB b, LoopEv.rateCheck] : List LoopEv).count
          LoopEv.rateCheck = 1 := rfl
      rw [hc, List.length_cons]
      omega
    · intro _
      have : loopEvents (b :: bs)
          = [LoopEv.recordStart, LoopEv.processB b, LoopEv.rateCheck] ++ loopEvents bs := by
        simp [loopEvents]
      rw [this]
      cases bs with
      | nil => rfl
      | cons b2 bs2 =>
        have hne : loopEvents (b2 :: bs2) ≠ [] := by simp [loopEvents]
        rw [List.getLast?_append_of_ne_nil _ hne]
        exact ih.2 (by simp)

/-- Witness for C8 amended: a concrete two-batch run ends in a rate
check and performs two checks. -/
theorem rateCheck_after_every_batch_witness :
    (loopEvents [["a"], ["b"]]).count .rateCheck = 2
    ∧ (loopEvents [["a"], ["b"]]).getLast? = some .rateCheck :=
  ⟨(rateCheck_after_every_batch [["a"], ["b"]]).1,
   (rateCheck_after_every_batch [["a"], ["b"]]).2 (by decide)⟩

/-! ### The address substring (C10) -/

/-- Helper: in every branch the outcome's address and every issued
request use `firstField record`, and the computation depends on the
record only through `firstField`. -/
theorem check_exposure_uses_first_field (record : String) (w : AddrWorld) :
    (check_exposure record w).1.address = some (firstField record)
    ∧ ∀ q ∈ (check_exposure record w).2,
        q = .register (firstField record) ∨ q = .retrieve (firstField record) := by
  unfold check_exposure
  cases w.post with
  | fault m => simp [errInfo]
  | success resp b =>
    by_cases hok : resp.ok = false
    · simp [hok, errInfo]
    · cases w.get with
      | fault m => simp [hok, errInfo]
      | success resp2 body =>
        by_cases hok2 : resp2.ok = false
        · simp [hok, hok2, errInfo]
        · cases body with
          | error m => simp [hok, hok2, errInfo]
          | ok p => simp [hok, hok2]

/-- C10: only the substring of the input line before the first comma is
used — it is the address in the outcome, the address in every issued
request, the whole computation depends on the line only through it, and
text after a comma is discarded (concretely,
`firstField "0xABC,junk after comma" = "0xABC"`). -/
theorem only_first_comma_field_used :
    (∀ record w, (check_exposure record w).1.address = some (firstField record))
    ∧ (∀ record w, ∀ q ∈ (check_exposure record w).2,
        q = .register (firstField record) ∨ q = .retrieve (firstField record))
    ∧ (∀ r1 r2 w, firstField r1 = firstField r2 →
        check_exposure r1 w = check_exposure r2 w)
    ∧ firstField "0xABC,junk after comma" = "0xABC" := by
  refine ⟨fun record w => (check_exposure_uses_first_field record w).1,
    fun record w => (check_exposure_uses_first_field record w).2, ?_, by decide⟩
  intro r1 r2 w h
  unfold check_exposure
  rw [h]

/-- Witness for C10: two lines sharing the field before the comma
produce identical outcomes and requests against a concrete world. -/
theorem only_first_comma_field_used_witness :
    check_exposure "0xA,tail-one"
        { post := .fault "boom", get := .fault "boom" }
      = check_exposure "0xA,other tail"
        { post := .fault "boom", get := .fault "boom" }
    ∧ firstField "0xABC,junk after comma" = "0xABC" :=
  ⟨only_first_comma_field_used.2.2.1 "0xA,tail-one" "0xA,other tail"
      { post := .fault "boom", get := .fault "boom" } (by decide),
   only_first_comma_field_used.2.2.2⟩

/-! ### Sliding-window rate limiter (`setBatchTime` / `checkRateLimit`)

Timestamps are `Int` milliseconds (mirroring JS number arithmetic on
`Date.now()` values). A run is driven by a list of per-batch durations
`(dProc, dExtra)`: `dProc` is the time `processBatch` takes, `dExtra`
any further scheduling delay before the next `Date.now()` read. The
trace of a run is the list of batch start times. -/

/-- `let batchesPerMin = Math.floor(rateLimit / requestsPerBatch)` with
`requestsPerBatch = 2 * parallelism` — the window capacity. -/
def batchesPerMin : Nat := rateLimit / (2 * parallelism)

/-- `setBatchTime(array, item, length)`:
`array.unshift(item) > length ? array.pop() : null; return array` —
push to the front; drop the last entry when the array exceeds `length`. -/
def setBatchTime (array : List Int) (item : Int) (length : Nat) : List Int :=
  if (item :: array).length > length then (item :: array).dropLast
  else item :: array

/-- The suspension performed by `checkRateLimit(batches)` when called at
time `now`: `timeSinceBatch = now - batches[batches.length-1]`; if it is
under `60000` the call sleeps `61000 - timeSinceBatch`, else not at all
(an empty array gives `NaN` comparisons in JS, hence no sleep). -/
def sleepFor (batches : List Int) (now : Int) : Int :=
  match batches.getLast? with
  | none => 0
  | some oldest => if now - oldest < 60000 then 61000 - (now - oldest) else 0

/-- The rate limiter's state between loop iterations: the
`batchTimes` window and the current wall clock. -/
structure RLState where
  window : List Int
  clock : Int

/-- One iteration of the batch loop, as seen by the rate limiter:
record the start time into the window (`setBatchTime`), let
`processBatch` take `d.1` ms, suspend per `checkRateLimit`, then let up
to `d.2` ms pass before the next iteration. Returns the new state and
this batch's start time. -/
def rlStep (cap : Nat) (s : RLState) (d : Nat × Nat) : RLState × Int :=
  (⟨setBatchTime s.window s.clock cap,
    s.clock + (d.1 : Int)
      + sleepFor (setBatchTime s.window s.clock cap) (s.clock + (d.1 : Int))
      + (d.2 : Int)⟩,
   s.clock)

/-- The batch start times produced by running the loop from state `s`
with per-batch durations `ds`. -/
def rlRun (cap : Nat) : RLState → List (Nat × Nat) → List Int
  | _, [] => []
  | s, d :: ds => (rlStep cap s d).2 :: rlRun cap (rlStep cap s d).1 ds

/-- The start-time trace of a full run: the window starts as
`new Array(batchesPerMin).fill(0)` and the clock at `c0`. -/
def rlTrace (ds : List (Nat × Nat)) (c0 : Int) : List Int :=
  rlRun batchesPerMin ⟨List.replicate batchesPerMin 0, c0⟩ ds

/-- After a step from a full window, the window is the pushed window
with its last entry evicted. -/
theorem rlStep_window (cap : Nat) (s : RLState) (d : Nat × Nat)
    (hw : s.window.length = cap) :
    (rlStep cap s d).1.window = (s.clock :: s.window).dropLast := by
  unfold rlStep setBatchTime
  simp [hw]

/-- After the `checkRateLimit` suspension the clock is at least 60
seconds past the window's oldest entry: either the sleep branch tops
the clock up to `oldest + 61000`, or the no-sleep branch already had
`now - oldest ≥ 60000`. -/
theorem sleepFor_ge (w : List Int) (now v : Int) (hv : w.getLast? = some v) :
    v + 60000 ≤ now + sleepFor w now := by
  simp only [sleepFor, hv]
  split <;> omega

/-- A step's resulting clock is at least 60 seconds past the oldest
entry of the (post-push) window. -/
theorem rlStep_clock_ge (cap : Nat) (s : RLState) (d : Nat × Nat) (v : Int)
    (hv : ((rlStep cap s d).1.window).getLast? = some v) :
    v + 60000 ≤ (rlStep cap s d).1.clock := by
  have hv' : (setBatchTime s.window s.clock cap).getLast? = some v := hv
  have h := sleepFor_ge (setBatchTime s.window s.clock cap)
    (s.clock + (d.1 : Int)) v hv'
  show v + 60000
      ≤ s.clock + (d.1 : Int)
          + sleepFor (setBatchTime s.window s.clock cap) (s.clock + (d.1 : Int))
          + (d.2 : Int)
  omega

/-- The first element of a nonempty run trace is the starting clock. -/
theorem rlRun_get_zero (cap : Nat) (s : RLState) (d : Nat × Nat)
    (ds : List (Nat × Nat)) (h : 0 < (rlRun cap s (d :: ds)).length) :
    (rlRun cap s (d :: ds)).get ⟨0, h⟩ = s.clock := rfl

/-- A run trace has one start time per batch. -/
theorem rlRun_length (cap : Nat) :
    ∀ (ds : List (Nat × Nat)) (s : RLState),
      (rlRun cap s ds).length = ds.length := by
  intro ds
  induction ds with
  | nil => intro s; rfl
  | cons d ds ih => intro s; simp [rlRun, ih]

/-- Dropping the last element preserves lookups strictly before it. -/
theorem dropLast_getElem? (l : List Int) (i : Nat) (h : i + 1 < l.length) :
    l.dropLast[i]? = l[i]? := by
  have h1 : i < l.dropLast.length := by
    rw [List.length_dropLast]
    omega
  have h2 : i < l.length := by omega
  rw [List.getElem?_eq_getElem h1, List.getElem?_eq_getElem h2]
  simp [List.getElem_dropLast]

/-- After a step from a full window, the window is still full. -/
theorem rlStep_window_length (cap : Nat) (s : RLState) (d : Nat × Nat)
    (hw : s.window.length = cap) :
    (rlStep cap s d).1.window.length = cap := by
  rw [rlStep_window cap s d hw, List.length_dropLast]
  simp [hw]

/-- The window entry buried `p` slots from the newest end is reflected
by the trace: entry `cap - 1 - p` of the current window bounds start
time `p` of the remaining trace from below by 60 s. -/
theorem rlRun_buried (cap : Nat) :
    ∀ (ds : List (Nat × Nat)) (s : RLState), s.window.length = cap →
      ∀ (p : Nat), 1 ≤ p → p + 1 ≤ cap →
        ∀ (v t : Int), s.window[cap - 1 - p]? = some v →
          (rlRun cap s ds)[p]? = some t → v + 60000 ≤ t := by
  intro ds
  induction ds with
  | nil =>
    intro s hw p hp1 hp2 v t hv ht
    simp [rlRun] at ht
  | cons d ds ih =>
    intro s hw p hp1 hp2 v t hv ht
    obtain ⟨p', rfl⟩ : ∃ p', p = p' + 1 := ⟨p - 1, by omega⟩
    have hwin : (rlStep cap s d).1.window = (s.clock :: s.window).dropLast :=
      rlStep_window cap s d hw
    have hwl : (rlStep cap s d).1.window.length = cap :=
      rlStep_window_length cap s d hw
    have ht' : (rlRun cap (rlStep cap s d).1 ds)[p']? = some t := by
      have : rlRun cap s (d :: ds)
          = (rlStep cap s d).2 :: rlRun cap (rlStep cap s d).1 ds := rfl
      rw [this, List.getElem?_cons_succ] at ht
      exact ht
    by_cases hp0 : p' = 0
    · subst hp0
      have hcap2 : 2 ≤ cap := by omega
      cases ds with
      | nil => simp [rlRun] at ht'
      | cons d2 ds2 =>
        have htc : t = (rlStep cap s d).1.clock := by
          have : rlRun cap (rlStep cap s d).1 (d2 :: ds2)
              = (rlStep cap (rlStep cap s d).1 d2).2
                  :: rlRun cap (rlStep cap (rlStep cap s d).1 d2).1 ds2 := rfl
          rw [this, List.getElem?_cons_zero] at ht'
          exact (Option.some_inj.mp ht').symm
        have hvlast : (rlStep cap s d).1.window.getLast? = some v := by
          rw [List.getLast?_eq_getElem?, hwl, hwin]
          rw [dropLast_getElem? _ _ (by simp [hw]; omega)]
          have e1 : cap - 1 = (cap - 2) + 1 := by omega
          rw [e1, List.getElem?_cons_succ]
          have e2 : cap - 1 - 1 = cap - 2 := by omega
          rw [e2] at hv
          exact hv
        rw [htc]
        exact rlStep_clock_ge cap s d v hvlast
    · have hp1' : 1 ≤ p' := by omega
      have hp2' : p' + 1 ≤ cap := by omega
      refine ih (rlStep cap s d).1 hwl p' hp1' hp2' v t ?_ ht'
      rw [hwin]
      have hi1 : 1 ≤ cap - 1 - p' := by omega
      rw [dropLast_getElem? _ _ (by simp [hw]; omega)]
      have e1 : cap - 1 - p' = (cap - 1 - p' - 1) + 1 := by omega
      rw [e1, List.getElem?_cons_succ]
      have e2 : cap - 1 - (p' + 1) = cap - 1 - p' - 1 := by omega
      rw [e2] at hv
      exact hv

/-- Start-time spacing: start `m + cap` of a run from a full window is
at least 60 s after start `m`. -/
theorem rlRun_spacing (cap : Nat) (hcap : 1 ≤ cap) :
    ∀ (ds : List (Nat × Nat)) (s : RLState), s.window.length = cap →
      ∀ (m : Nat) (u t : Int), (rlRun cap s ds)[m]? = some u →
        (rlRun cap s ds)[m + cap]? = some t → u + 60000 ≤ t := by
  intro ds
  induction ds with
  | nil =>
    intro s hw m u t hu ht
    simp [rlRun] at hu
  | cons d ds ih =>
    intro s hw m u t hu ht
    have hcons : rlRun cap s (d :: ds)
        = (rlStep cap s d).2 :: rlRun cap (rlStep cap s d).1 ds := rfl
    have hwin : (rlStep cap s d).1.window = (s.clock :: s.window).dropLast :=
      rlStep_window cap s d hw
    have hwl : (rlStep cap s d).1.window.length = cap :=
      rlStep_window_length cap s d hw
    by_cases hm : m = 0
    · subst hm
      have hu' : u = s.clock := by
        rw [hcons, List.getElem?_cons_zero] at hu
        exact (Option.some_inj.mp hu).symm
      have ht' : (rlRun cap (rlStep cap s d).1 ds)[cap - 1]? = some t := by
        have e : 0 + cap = (cap - 1) + 1 := by omega
        rw [hcons, e, List.getElem?_cons_succ] at ht
        exact ht
      subst hu'
      by_cases hc1 : cap = 1
      · subst hc1
        cases ds with
        | nil => simp [rlRun] at ht'
        | cons d2 ds2 =>
          have htc : t = (rlStep 1 s d).1.clock := by
            have : rlRun 1 (rlStep 1 s d).1 (d2 :: ds2)
                = (rlStep 1 (rlStep 1 s d).1 d2).2
                    :: rlRun 1 (rlStep 1 (rlStep 1 s d).1 d2).1 ds2 := rfl
            rw [this] at ht'
            simp at ht'
            exact ht'.symm
          have hvlast : (rlStep 1 s d).1.window.getLast? = some s.clock := by
            rw [List.getLast?_eq_getElem?, hwl, hwin]
            rw [dropLast_getElem? _ _ (by simp [hw])]
            simp
          rw [htc]
          exact rlStep_clock_ge 1 s d s.clock hvlast
      · have hcap2 : 2 ≤ cap := by omega
        refine rlRun_buried cap ds (rlStep cap s d).1 hwl (cap - 1)
          (by omega) (by omega) s.clock t ?_ ht'
        rw [hwin]
        have e : cap - 1 - (cap - 1) = 0 := by omega
        rw [e, dropLast_getElem? _ _ (by simp [hw]; omega)]
        simp
    · obtain ⟨m', rfl⟩ : ∃ m', m = m' + 1 := ⟨m - 1, by omega⟩
      have hu' : (rlRun cap (rlStep cap s d).1 ds)[m']? = some u := by
        rw [hcons, List.getElem?_cons_succ] at hu
        exact hu
      have ht' : (rlRun cap (rlStep cap s d).1 ds)[m' + cap]? = some t := by
        have e : m' + 1 + cap = (m' + cap) + 1 := by omega
        rw [hcons, e, List.getElem?_cons_succ] at ht
        exact ht
      exact ih (rlStep cap s d).1 hwl m' u t hu' ht'

/-- C2 amended: with window capacity
`batchesPerMin = floor(rateLimit / (2 * parallelism))`, whenever the
elapsed time since the oldest window timestamp is under 60000 ms,
`checkRateLimit` suspends for exactly `61000` ms minus that elapsed
time; consequently the start of batch `i` is never less than 60 seconds
(not 61) after the start of batch `i - batchesPerMin`, for every run
(any starting clock and any per-batch durations). -/
theorem checkRateLimit_spacing :
    (∀ (batches : List Int) (now oldest : Int),
        batches.getLast? = some oldest → now - oldest < 60000 →
        sleepFor batches now = 61000 - (now - oldest))
    ∧ (∀ (ds : List (Nat × Nat)) (c0 : Int) (m : Nat) (u t : Int),
        (rlTrace ds c0)[m]? = some u →
        (rlTrace ds c0)[m + batchesPerMin]? = some t →
        u + 60000 ≤ t) := by
  constructor
  · intro batches now oldest h hlt
    simp only [sleepFor, h]
    rw [if_pos hlt]
  · intro ds c0 m u t hu ht
    exact rlRun_spacing batchesPerMin (by decide) ds
      ⟨List.replicate batchesPerMin 0, c0⟩ (by simp) m u t hu ht

/-- Witness for C2 amended: a concrete sleep of `61000 - 5` ms, and the
60 s bound applied to a concrete 43-batch run (starts 0 and 61000). -/
theorem checkRateLimit_spacing_witness :
    sleepFor [(0 : Int)] 5 = 61000 - (5 - 0)
    ∧ ((0 : Int) + 60000 ≤ 61000) := by
  constructor
  · exact checkRateLimit_spacing.1 [0] 5 0 rfl (by decide)
  · exact checkRateLimit_spacing.2 (List.replicate 43 (0, 0)) 0 0 0 61000
      (by decide) (by decide)

/-- Durations refuting the 61 s gap: the first batch takes 60500 ms to
process (so no sleep is ever triggered), all later batches are
instantaneous. -/
def cexDurations : List (Nat × Nat) := (60500, 0) :: List.replicate 42 (0, 0)

/-- C2 counterexample: `batchesPerMin = 42`, and in the run driven by
`cexDurations` batch 42 starts 60500 ms — less than 61 seconds — after
batch `42 - 42 = 0`, yet no `checkRateLimit` sleep was due (elapsed
time never dropped under 60000 ms), refuting the claimed 61-second
lower bound on the gap. -/
theorem rate_gap_below_61s :
    batchesPerMin = 42
    ∧ (rlTrace cexDurations 0)[0]? = some 0
    ∧ (rlTrace cexDurations 0)[42]? = some 60500
    ∧ ¬ ((0 : Int) + 61000 ≤ 60500) := by
  refine ⟨by decide, by decide, by decide, by decide⟩

end AddressScreen
